import Mathlib

/-!
Verification of the hex coordinate-algebra library (`src/hex`).

The development shallowly embeds `src/hex/src/point.rs`, `src/hex/src/hex.rs`
and `src/hex/src/map.rs`.  Rust `i32` values are modelled as `Int` (the spec
treats overflow as a precondition violation, so wrapping is not modelled);
Rust `Vec<Point>` becomes `List Point`; the `f32` values used internally by
`slope`/`interpolate` are modelled by `F` below, an exact-rational model that
tracks the NaN value produced by `0.0 / 0.0`.
-/

namespace HexGrid

/-- `Point` from point.rs: each hex location is two integers `hx`, `hy`. -/
structure Point where
  hx : Int
  hy : Int
deriving DecidableEq, Repr

/-- `ORIGIN` from point.rs: the reference point (0, 0). -/
def ORIGIN : Point := ⟨0, 0⟩

/-- `UNIT` from point.rs: the six unit direction vectors, in source order. -/
def UNIT : List Point :=
  [⟨0, -1⟩, ⟨1, -1⟩, ⟨1, 0⟩, ⟨0, 1⟩, ⟨-1, 1⟩, ⟨-1, 0⟩]

/-- `impl Add for Point`: component-wise sum. -/
def Point.add (a b : Point) : Point := ⟨a.hx + b.hx, a.hy + b.hy⟩

instance : Add Point := ⟨Point.add⟩

/-- `impl Sub for Point`: component-wise difference. -/
def Point.sub (a b : Point) : Point := ⟨a.hx - b.hx, a.hy - b.hy⟩

instance : Sub Point := ⟨Point.sub⟩

/-- `impl Mul<i32> for Point`: scale both components. -/
def Point.mul (a : Point) (rhs : Int) : Point := ⟨a.hx * rhs, a.hy * rhs⟩

/-- `Point::hz`: the dependent third axis, `hy - hx`. -/
def Point.hz (p : Point) : Int := p.hy - p.hx

/-- The Rust iterator `a..b` over `i32`, as the list of its elements
(empty when `b ≤ a`). -/
def rangeLt (a b : Int) : List Int :=
  (List.range (b - a).toNat).map (fun (i : Nat) => a + (i : Int))

/-- `Point::neighbor`: `*self + UNIT[direction.rem_euclid(6)]`.
`rem_euclid` is `Int.emod` (non-negative remainder); the index is `< 6`,
so the `getD` default is never used. -/
def Point.neighbor (p : Point) (direction : Int) : Point :=
  p + UNIT.getD (direction.emod 6).toNat ORIGIN

/-- `Point::invert`: negate both components. -/
def Point.invert (p : Point) : Point := ⟨p.hx * -1, p.hy * -1⟩

/-- `Point::reflect`: match on `axis.rem_euclid(3)`; the `_ => ORIGIN` arm of
the source match is unreachable and kept verbatim. -/
def Point.reflect (p : Point) (axis : Int) : Point :=
  match (axis.emod 3).toNat with
  | 0 => ⟨p.hx, p.hz⟩
  | 1 => ⟨p.hz, p.hy⟩
  | 2 => ⟨p.hy, p.hx⟩
  | _ => ORIGIN

/-- `Point::reflect_hx`. -/
def Point.reflect_hx (p : Point) : Point := ⟨p.hx, p.hz⟩

/-- `Point::reflect_hy`. -/
def Point.reflect_hy (p : Point) : Point := ⟨p.hz, p.hy⟩

/-- `Point::reflect_hz`. -/
def Point.reflect_hz (p : Point) : Point := ⟨p.hy, p.hx⟩

/-- `Point::rotate`: `rot = hextant.rem_euclid(3)`, sign from
`hextant.rem_euclid(2)`, then index the 5-element array
`[hx, hy, hz, hx, hy]` at `rot` and `rot + 1`.  Both indices are `< 5`, so
the `getD` default is never used.  (The source also `println!`s; side
effects are dropped in this pure model.) -/
def Point.rotate (p : Point) (hextant : Int) : Point :=
  let rot := (hextant.emod 3).toNat
  let sign : Int := if hextant.emod 2 = 0 then 1 else -1
  let arr := [p.hx, p.hy, p.hz, p.hx, p.hy]
  ⟨arr.getD rot 0 * sign, arr.getD (rot + 1) 0 * sign⟩

/-- `Point::distance`: `(diff.hx.abs() + (diff.hx + diff.hy).abs() + diff.hy.abs()) / 2`.
Rust `/` on `i32` truncates toward zero, which is `Int.tdiv`. -/
def Point.distance (a b : Point) : Int :=
  let diff := a - b
  Int.tdiv (|diff.hx| + |diff.hx + diff.hy| + |diff.hy|) 2

/-- Model of the `f32` values flowing through `slope`/`interpolate`: either a
finite value, held as the exact unreduced fraction `num / den` (`f32`
rounding error is not modelled — exact-real semantics, faithful for the
small magnitudes the spec admits), or NaN.  Every `fin` built below has
`den > 0`.  The only division in this code is `diff / length` with
`length = distance ≥ 0`, and `length = 0` forces `diff = 0`, so
`0.0 / 0.0 = NaN` is the only non-finite `f32` value that can arise. -/
inductive F where
  | fin (num den : Int)
  | nan
deriving DecidableEq, Repr

/-- An integer-valued `f32`. -/
def F.ofInt (n : Int) : F := F.fin n 1

/-- `f32` division of exact integers as used in `slope`: division by zero
with a zero numerator yields NaN (a nonzero numerator would yield ±∞, but
that cannot occur here, see `F`). -/
def F.div (a b : Int) : F := if b = 0 then F.nan else F.fin a b

/-- `f32` multiplication: NaN propagates (IEEE: `0.0 * NaN = NaN`). -/
def F.mul : F → F → F
  | F.fin n1 d1, F.fin n2 d2 => F.fin (n1 * n2) (d1 * d2)
  | _, _ => F.nan

/-- `f32` addition: NaN propagates. -/
def F.add : F → F → F
  | F.fin n1 d1, F.fin n2 d2 => F.fin (n1 * d2 + n2 * d1) (d1 * d2)
  | _, _ => F.nan

/-- Rust `f32::round`: nearest integer, ties away from zero; `NaN.round()`
is NaN.  For `den > 0` and `0 ≤ num` the value is non-negative and
`⌊num/den + 1/2⌋ = (2*num + den).fdiv (2*den)`; a negative value is rounded
through its negation so ties go away from zero. -/
def F.round : F → F
  | F.fin num den =>
    F.ofInt (if 0 ≤ num then Int.fdiv (2 * num + den) (2 * den)
             else -Int.fdiv (2 * (-num) + den) (2 * den))
  | F.nan => F.nan

/-- Rust `as i32` on an `f32`: truncation toward zero, and NaN casts to 0.
(Saturation at the `i32` bounds is not modelled; the values cast in this
code are exact integers within range.) -/
def F.toI32 : F → Int
  | F.fin num den => if 0 ≤ num then Int.fdiv num den else -Int.fdiv (-num) den
  | F.nan => 0

/-- `Point::slope`: `(diff.hx / length, diff.hy / length)` in `f32`, where
`length = self.distance(other)`. -/
def Point.slope (p other : Point) : F × F :=
  let length := p.distance other
  let diff := other - p
  (F.div diff.hx length, F.div diff.hy length)

/-- `Point::interpolate`:
`(self.hx as f32 + (step as f32 * slope.x).round()) as i32` on each axis. -/
def Point.interpolate (p other : Point) (step : Int) : Point :=
  let slope := p.slope other
  ⟨(F.add (F.ofInt p.hx) (F.round (F.mul (F.ofInt step) slope.1))).toI32,
   (F.add (F.ofInt p.hy) (F.round (F.mul (F.ofInt step) slope.2))).toI32⟩

/-- `Point::line`: map `interpolate` over `0..self.distance(other)+1`.
Note the source has no special case for `distance = 0`. -/
def Point.line (p other : Point) : List Point :=
  (rangeLt 0 (p.distance other + 1)).map (fun i => p.interpolate other i)

/-- `Point::region`: for `hx in -dist..dist+1`, for
`hy in (-dist).max(-hx - dist)..(dist.min(-hx + dist))+1`, push
`*self + (hx, hy)`. -/
def Point.region (p : Point) (dist : Int) : List Point :=
  (rangeLt (-dist) (dist + 1)).flatMap (fun hx =>
    (rangeLt (max (-dist) (-hx - dist)) (min dist (-hx + dist) + 1)).map (fun hy =>
      p + ⟨hx, hy⟩))

/-- One direction's arc of `Point::ring`'s nested loop: starting from `next`,
`k` times push `next` and then step `next = next.neighbor(hextant)`;
returns the pushed points and the final `next`. -/
def ringArc (next : Point) (hextant : Int) : Nat → List Point × Point
  | 0 => ([], next)
  | Nat.succ k =>
    let rest := ringArc (next.neighbor hextant) hextant k
    (next :: rest.1, rest.2)

/-- The outer loop of `Point::ring`: thread `next` through the arcs for the
listed hextants, concatenating the pushed points. -/
def ringArcs (next : Point) (steps : Nat) : List Int → List Point
  | [] => []
  | h :: t =>
    let arc := ringArc next h steps
    arc.1 ++ ringArcs arc.2 steps t

/-- `Point::ring`: if `radius == 0` return `vec!(*self)`; otherwise start
from `UNIT[4] * radius.abs()` (note: the source does NOT add `*self`) and
run the outer loop over hextants 0..6 and, inside it, `radius` push-then-step
iterations per hextant.
The inner `0..radius` loop runs `radius.toNat` times (zero for negative
`radius`). -/
def Point.ring (p : Point) (radius : Int) : List Point :=
  if radius = 0 then [p]
  else ringArcs ((UNIT.getD 4 ORIGIN).mul (|radius|)) radius.toNat [0, 1, 2, 3, 4, 5]

/-- Modelled from the spec: `spiral` is absent from `src/` (only the test
suite `src/hex/tests/point_test.rs` calls it).  Spec §4.1: "the
concatenation of `ring(p, 0), ring(p, 1), …, ring(p, radius)` in increasing
radius order". -/
def Point.spiral (p : Point) (radius : Int) : List Point :=
  (rangeLt 0 (radius + 1)).flatMap (fun r => p.ring r)

/-- `Shape` from map.rs. -/
inductive Shape where
  | Rectangle
  | Hexagon
  | MegaHex
deriving DecidableEq, Repr

/-- `Orientation` from map.rs. -/
inductive MapOrientation where
  | Horizontal
  | Vertical
deriving DecidableEq, Repr

/-- `Hex` from hex.rs: a grid cell holding one location. -/
structure Hex where
  location : Point
deriving DecidableEq, Repr

/-- `Hex::new`. -/
def Hex.new (location : Point) : Hex := ⟨location⟩

/-- `Row` from map.rs: an ordered sequence of cells. -/
structure Row where
  row : List Hex
deriving DecidableEq, Repr

/-- `Map` from map.rs. -/
structure Map where
  shape : Shape
  orientation : MapOrientation
  size : Point
  origin : Point
  rows : List Row
deriving Repr

/-- `Map::new`: `for i in 0..size.hx` push a new row, and
`for j in 0..size.hy` push a `Hex` located at `(i + origin.hx, j + origin.hy)`
onto row `i`.  The imperative pushes build exactly this row-major list. -/
def Map.new (shape : Shape) (orientation : MapOrientation) (size origin : Point) : Map :=
  let rows := (rangeLt 0 size.hx).map (fun i =>
    Row.mk ((rangeLt 0 size.hy).map (fun j =>
      Hex.new ⟨i + origin.hx, j + origin.hy⟩)))
  ⟨shape, orientation, size, origin, rows⟩

/-! ### Basic component lemmas -/

theorem add_hx (a b : Point) : (a + b).hx = a.hx + b.hx := rfl

theorem add_hy (a b : Point) : (a + b).hy = a.hy + b.hy := rfl

theorem sub_hx (a b : Point) : (a - b).hx = a.hx - b.hx := rfl

theorem sub_hy (a b : Point) : (a - b).hy = a.hy - b.hy := rfl

theorem point_ext {a b : Point} (h1 : a.hx = b.hx) (h2 : a.hy = b.hy) : a = b := by
  cases a; cases b; cases h1; cases h2; rfl

theorem mem_rangeLt {a b x : Int} : x ∈ rangeLt a b ↔ a ≤ x ∧ x < b := by
  unfold rangeLt
  rw [List.mem_map]
  constructor
  · rintro ⟨i, hi, rfl⟩
    rw [List.mem_range] at hi
    omega
  · rintro ⟨h1, h2⟩
    refine ⟨(x - a).toNat, ?_, ?_⟩
    · rw [List.mem_range]; omega
    · omega

theorem length_rangeLt (a b : Int) : (rangeLt a b).length = (b - a).toNat := by
  rw [rangeLt, List.length_map, List.length_range]

theorem reflect_zero (p : Point) : p.reflect 0 = ⟨p.hx, p.hz⟩ := rfl

theorem reflect_one (p : Point) : p.reflect 1 = ⟨p.hz, p.hy⟩ := rfl

theorem reflect_two (p : Point) : p.reflect 2 = ⟨p.hy, p.hx⟩ := rfl

theorem length_flatMap {α β : Type} (l : List α) (f : α → List β) :
    (l.flatMap f).length = (l.map (fun a => (f a).length)).sum := by
  induction l with
  | nil => rfl
  | cons x t ih => simp only [List.flatMap_cons, List.length_append, List.map_cons,
      List.sum_cons, ih]

theorem map_congr_fn {α β : Type} {l : List α} {f g : α → β} (h : ∀ x ∈ l, f x = g x) :
    l.map f = l.map g := by
  induction l with
  | nil => rfl
  | cons a t ih =>
    simp only [List.map_cons]
    rw [h a (by simp), ih (fun x hx => h x (by simp [hx]))]

theorem sum_map_add_two {l : List Int} {f g : Int → Nat}
    (h : ∀ x ∈ l, f x = g x + 2) :
    (l.map f).sum = (l.map g).sum + 2 * l.length := by
  induction l with
  | nil => rfl
  | cons a t ih =>
    simp only [List.map_cons, List.sum_cons, List.length_cons]
    rw [h a (by simp), ih (fun x hx => h x (by simp [hx]))]
    ring

theorem rangeLt_succ_right {a b : Int} (h : a ≤ b) :
    rangeLt a (b + 1) = rangeLt a b ++ [b] := by
  unfold rangeLt
  have h1 : (b + 1 - a).toNat = (b - a).toNat + 1 := by omega
  rw [h1, List.range_succ, List.map_append, List.map_cons, List.map_nil]
  have h2 : a + (((b - a).toNat : Nat) : Int) = b := by omega
  rw [h2]

theorem rangeLt_cons_left {a b : Int} (h : a ≤ b) :
    rangeLt (a - 1) b = (a - 1) :: rangeLt a b := by
  unfold rangeLt
  have h1 : (b - (a - 1)).toNat = (b - a).toNat + 1 := by omega
  rw [h1, List.range_succ_eq_map, List.map_cons, List.map_map]
  have h2 : a - 1 + ((0 : Nat) : Int) = a - 1 := by omega
  rw [h2]
  congr 1
  apply map_congr_fn
  intro x _
  simp only [Function.comp_apply, Nat.succ_eq_add_one]
  omega

theorem two_mul_distance (a b : Point) :
    2 * Point.distance a b =
      ((a.hx - b.hx).natAbs : Int) + ((a.hx - b.hx + (a.hy - b.hy)).natAbs : Int) +
        ((a.hy - b.hy).natAbs : Int) := by
  unfold Point.distance
  simp only [sub_hx, sub_hy, Int.abs_eq_natAbs]
  rw [Int.tdiv_eq_ediv] <;> omega

/-! ### Claim C4: the distance formula -/

/-- C4 (counterexample): at `a = (1,1)`, `b = (0,0)` the code's distance is 2
but `max(|d.hx|, |d.hy|, |d.hz()|) = 1`, because `hz() = hy - hx` is not the
third cube coordinate. -/
theorem distance_max_hz_counterexample :
    Point.distance ⟨1, 1⟩ ⟨0, 0⟩ ≠
      max (max |(Point.sub ⟨1, 1⟩ ⟨0, 0⟩).hx| |(Point.sub ⟨1, 1⟩ ⟨0, 0⟩).hy|)
        |(Point.sub ⟨1, 1⟩ ⟨0, 0⟩).hz| := by decide

/-- C4 (amended): `distance(a, b)` is `(|d.hx| + |d.hx + d.hy| + |d.hy|) / 2`
with `d = sub(a, b)`, the sum is always even (so the truncating division is
exact), and the value equals `max(|d.hx|, |d.hy|, |d.hx + d.hy|)` — the
third cube coordinate of the difference is `-(d.hx + d.hy)` up to sign, not
the code's `hz() = hy - hx`. -/
theorem distance_formula (a b : Point) :
    Point.distance a b =
      Int.tdiv (|(Point.sub a b).hx| + |(Point.sub a b).hx + (Point.sub a b).hy| +
        |(Point.sub a b).hy|) 2 ∧
    (|(Point.sub a b).hx| + |(Point.sub a b).hx + (Point.sub a b).hy| +
        |(Point.sub a b).hy|) % 2 = 0 ∧
    Point.distance a b =
      max (max |(Point.sub a b).hx| |(Point.sub a b).hy|)
        |(Point.sub a b).hx + (Point.sub a b).hy| := by
  obtain ⟨ax, ay⟩ := a
  obtain ⟨bx, c⟩ := b
  refine ⟨rfl, ?_, ?_⟩
  · simp only [Point.sub, Int.abs_eq_natAbs]
    omega
  · simp only [Point.distance, HSub.hSub, Sub.sub, Point.sub, Point.hz, Int.abs_eq_natAbs]
    rw [Int.tdiv_eq_ediv] <;> omega

/-! ### Claim C7: region -/

theorem mem_region {p : Point} {dist : Int} (h : 0 ≤ dist) (q : Point) :
    q ∈ p.region dist ↔ Point.distance p q ≤ dist := by
  have hd := two_mul_distance p q
  unfold Point.region
  rw [List.mem_flatMap]
  constructor
  · rintro ⟨hx, hhx, hq⟩
    rw [List.mem_map] at hq
    obtain ⟨hy, hhy, rfl⟩ := hq
    rw [mem_rangeLt] at hhx hhy
    simp only [add_hx, add_hy] at hd
    omega
  · intro hq
    refine ⟨q.hx - p.hx, ?_, ?_⟩
    · rw [mem_rangeLt]; omega
    · rw [List.mem_map]
      refine ⟨q.hy - p.hy, ?_, ?_⟩
      · rw [mem_rangeLt]; omega
      · apply point_ext
        · simp only [add_hx]; ring
        · simp only [add_hy]; ring

theorem region_length (p : Point) (dist : Int) :
    (p.region dist).length =
      ((rangeLt (-dist) (dist + 1)).map
        (fun hx => (min dist (-hx + dist) + 1 - max (-dist) (-hx - dist)).toNat)).sum := by
  unfold Point.region
  rw [length_flatMap]
  congr 1
  apply map_congr_fn
  intro x _
  rw [List.length_map, length_rangeLt]

theorem region_row_sum (n : Nat) :
    ((rangeLt (-(n : Int)) ((n : Int) + 1)).map
      (fun hx => (min (n : Int) (-hx + (n : Int)) + 1 -
        max (-(n : Int)) (-hx - (n : Int))).toNat)).sum = 3 * n * n + 3 * n + 1 := by
  induction n with
  | zero => decide
  | succ k ih =>
    have hK : ((k + 1 : Nat) : Int) = (k : Int) + 1 := by push_cast; ring
    rw [hK]
    have e1 : (-((k : Int) + 1)) = (-(k : Int)) - 1 := by ring
    rw [e1, rangeLt_cons_left (by omega), rangeLt_succ_right (by omega)]
    simp only [List.map_cons, List.map_append, List.map_nil, List.sum_cons,
      List.sum_append, List.sum_nil]
    rw [sum_map_add_two (g := fun hx =>
        (min (k : Int) (-hx + (k : Int)) + 1 -
          max (-(k : Int)) (-hx - (k : Int))).toNat)
      (fun x hx => by rw [mem_rangeLt] at hx; simp only []; omega)]
    rw [ih, length_rangeLt]
    have hlen : (((k : Int) + 1) - (-(k : Int))).toNat = 2 * k + 1 := by omega
    rw [hlen]
    have hlo : (min ((k : Int) + 1) (-(-(k : Int) - 1) + ((k : Int) + 1)) + 1 -
        max (-(k : Int) - 1) (-(-(k : Int) - 1) - ((k : Int) + 1))).toNat = k + 2 := by
      omega
    have hhi : (min ((k : Int) + 1) (-((k : Int) + 1) + ((k : Int) + 1)) + 1 -
        max (-(k : Int) - 1) (-((k : Int) + 1) - ((k : Int) + 1))).toNat = k + 2 := by
      omega
    rw [hlo, hhi]
    ring

/-- C7: for `dist ≥ 0`, `region(p, dist)` contains exactly the points at
hex-distance at most `dist` from `p`, and its length is
`3*dist*dist + 3*dist + 1`. -/
theorem region_correct (p : Point) (dist : Int) (h : 0 ≤ dist) :
    (∀ q : Point, q ∈ p.region dist ↔ Point.distance p q ≤ dist) ∧
    ((p.region dist).length : Int) = 3 * dist * dist + 3 * dist + 1 := by
  refine ⟨fun q => mem_region h q, ?_⟩
  lift dist to ℕ using h with n
  rw [region_length, region_row_sum]
  push_cast
  ring

/-- C7 (witness): the theorem applied at `p = ORIGIN`, `dist = 1`. -/
theorem region_correct_witness :
    ((⟨0, 1⟩ : Point) ∈ Point.region ORIGIN 1 ↔ Point.distance ORIGIN ⟨0, 1⟩ ≤ 1) ∧
    ((Point.region ORIGIN 1).length : Int) = 3 * 1 * 1 + 3 * 1 + 1 :=
  ⟨(region_correct ORIGIN 1 (by decide)).1 ⟨0, 1⟩, (region_correct ORIGIN 1 (by decide)).2⟩

/-! ### Claim C8: rotation periodicity -/

/-- C8: `rotate(p, 0) == p`, `rotate(p, 6) == p`, `rotate(p, -6) == p` and
`rotate(p, 3) == invert(p)` for every point `p` (the hextant argument enters
only through its Euclidean residues modulo 3 and modulo 2). -/
theorem rotate_periodicity (p : Point) :
    p.rotate 0 = p ∧ p.rotate 6 = p ∧ p.rotate (-6) = p ∧ p.rotate 3 = p.invert := by
  exact ⟨point_ext (mul_one p.hx) (mul_one p.hy), point_ext (mul_one p.hx) (mul_one p.hy),
    point_ext (mul_one p.hx) (mul_one p.hy), rfl⟩

/-! ### Claim C10: reflections -/

/-- C10: reflecting twice across axis 1 or axis 2 is the identity
(equivalently `reflect_hy` and `reflect_hz` are involutions), while axis 0
is not an involution: applying it twice sends `p` to
`(p.hx, p.hy - 2*p.hx)`, as the concrete non-fixed point `(1, 0)` shows. -/
theorem reflect_involutions (p : Point) :
    (p.reflect 1).reflect 1 = p ∧ (p.reflect 2).reflect 2 = p ∧
    p.reflect_hy.reflect_hy = p ∧ p.reflect_hz.reflect_hz = p ∧
    (p.reflect 0).reflect 0 = ⟨p.hx, p.hy - 2 * p.hx⟩ ∧
    ((⟨1, 0⟩ : Point).reflect 0).reflect 0 ≠ ⟨1, 0⟩ := by
  refine ⟨?_, ?_, ?_, ?_, ?_, by decide⟩ <;>
    · apply point_ext <;>
        simp only [reflect_zero, reflect_one, reflect_two, Point.reflect_hy, Point.reflect_hz,
          Point.hz] <;> omega

/-! ### Claim C1: line endpoints -/

/-- C1 (code evaluated at the failing input): the source has no
short-circuit for `distance == 0`, so `line(p, p)` computes the slope
`0.0 / 0.0 = NaN`; NaN propagates through `round` and the `as i32` cast
turns it into 0, giving `line((1,1), (1,1)) = [(0,0)]`, not `[(1,1)]`. -/
theorem line_self_nan_failing :
    Point.line ⟨1, 1⟩ ⟨1, 1⟩ = [⟨0, 0⟩] ∧ Point.line ⟨1, 1⟩ ⟨1, 1⟩ ≠ [⟨1, 1⟩] := by decide

/-! ### Claim C2: ring -/

/-- C2 (code evaluated at the failing input): `ring` starts from
`UNIT[4] * radius.abs()` without ever adding `*self`, so for
`p = (1, 0)`, `radius = 1` the first emitted point is `(-1, 1)` — not
`p + UNIT[4] * 1 = (0, 1)` — and it lies at distance 2 from `p`, not 1. -/
theorem ring_center_failing :
    Point.ring ⟨1, 0⟩ 1 = [⟨-1, 1⟩, ⟨-1, 0⟩, ⟨0, -1⟩, ⟨1, -1⟩, ⟨1, 0⟩, ⟨0, 1⟩] ∧
    (Point.ring ⟨1, 0⟩ 1).getD 0 ORIGIN ≠ (⟨1, 0⟩ : Point) + (UNIT.getD 4 ORIGIN).mul 1 ∧
    Point.distance ⟨1, 0⟩ ((Point.ring ⟨1, 0⟩ 1).getD 0 ORIGIN) = 2 := by decide

/-! ### Claim C5: rotate on the unit vectors -/

/-- C5 (code evaluated at the failing input): `rotate(UNIT[0], 1) = (1, 1)`,
which is not a unit vector at all (the cyclic array `[hx, hy, hz, hx, hy]`
uses `hz = hy - hx`, which is not the third cube coordinate, so `rotate` by
one hextant is not a 60° lattice rotation); in particular neither
`rotate(UNIT[i], 1) = UNIT[(i+1) % 6]` for all `i` nor
`rotate(UNIT[i], 1) = UNIT[(i+5) % 6]` for all `i` holds. -/
theorem rotate_unit_failing :
    Point.rotate (UNIT.getD 0 ORIGIN) 1 = ⟨1, 1⟩ ∧
    (∀ j : Fin 6, UNIT.getD j.1 ORIGIN ≠ ⟨1, 1⟩) ∧
    ¬ ((∀ i : Fin 6,
          Point.rotate (UNIT.getD i.1 ORIGIN) 1 = UNIT.getD ((i.1 + 1) % 6) ORIGIN) ∨
       (∀ i : Fin 6,
          Point.rotate (UNIT.getD i.1 ORIGIN) 1 = UNIT.getD ((i.1 + 5) % 6) ORIGIN)) := by
  decide

/-! ### Claim C3: spiral -/

theorem ringArc_length (hextant : Int) :
    ∀ (k : Nat) (s : Point), (ringArc s hextant k).1.length = k := by
  intro k
  induction k with
  | zero => intro s; rfl
  | succ m ih =>
    intro s
    simp only [ringArc, List.length_cons, ih]

theorem ringArcs_length (steps : Nat) :
    ∀ (l : List Int) (s : Point), (ringArcs s steps l).length = l.length * steps := by
  intro l
  induction l with
  | nil => intro s; simp [ringArcs]
  | cons h t ih =>
    intro s
    simp only [ringArcs, List.length_append, List.length_cons, ringArc_length, ih]
    ring

theorem ring_length (p : Point) (r : Int) :
    (p.ring r).length = if r = 0 then 1 else 6 * r.toNat := by
  unfold Point.ring
  by_cases h : r = 0
  · rw [if_pos h, if_pos h]
    rfl
  · rw [if_neg h, if_neg h, ringArcs_length]
    rfl

theorem spiral_length_nat (p : Point) :
    ∀ n : Nat, (p.spiral (n : Int)).length = 3 * n * n + 3 * n + 1 := by
  intro n
  induction n with
  | zero => rfl
  | succ k ih =>
    have hK : ((k + 1 : Nat) : Int) = (k : Int) + 1 := by push_cast; ring
    rw [hK]
    unfold Point.spiral at ih ⊢
    rw [rangeLt_succ_right (by omega), List.flatMap_append, List.length_append, ih]
    simp only [List.flatMap_cons, List.flatMap_nil, List.append_nil]
    rw [ring_length, if_neg (by omega)]
    have ht : ((k : Int) + 1).toNat = k + 1 := by omega
    rw [ht]
    ring

/-- C3: the spec-modelled `spiral(p, radius)` equals the concatenation of
`ring(p, 0), …, ring(p, radius)` in increasing radius order, and for
`radius ≥ 0` its length is `3*radius*radius + 3*radius + 1`. -/
theorem spiral_spec (p : Point) (radius : Int) (h : 0 ≤ radius) :
    p.spiral radius = (rangeLt 0 (radius + 1)).flatMap (fun r => p.ring r) ∧
    ((p.spiral radius).length : Int) = 3 * radius * radius + 3 * radius + 1 := by
  refine ⟨rfl, ?_⟩
  lift radius to ℕ using h with n
  rw [spiral_length_nat]
  push_cast
  ring

/-- C3 (witness): the theorem applied at `p = ORIGIN`, `radius = 2`. -/
theorem spiral_spec_witness :
    Point.spiral ORIGIN 2 = (rangeLt 0 (2 + 1)).flatMap (fun r => Point.ring ORIGIN r) ∧
    ((Point.spiral ORIGIN 2).length : Int) = 3 * 2 * 2 + 3 * 2 + 1 :=
  spiral_spec ORIGIN 2 (by decide)

/-! ### Claim C9: map construction -/

theorem getD_map_rangeLt {β : Type} (f : Int → β) (a b : Int) (i : Nat) (d : β)
    (h : i < (b - a).toNat) : ((rangeLt a b).map f).getD i d = f (a + i) := by
  rw [rangeLt, List.map_map, List.getD_eq_getElem?_getD, List.getElem?_map,
    List.getElem?_range h]
  rfl

/-- C9 (counterexample): for the negative size `(-1, 0)` the loop
`for i in 0..size.hx` runs zero times, so the map has 0 rows, not
`size.hx = -1` rows as the unrestricted claim would require. -/
theorem map_new_negative_counterexample :
    ¬ (((Map.new Shape.Rectangle MapOrientation.Vertical ⟨-1, 0⟩ ORIGIN).rows.length : Int) =
        (Point.mk (-1) 0).hx) := by decide

/-- C9 (amended): for sizes with `size.hx ≥ 0` and `size.hy ≥ 0`, the map
built by `Map::new` has `size.hx` rows, each row has `size.hy` cells, and
the cell `[i][j]` has location `origin + (i, j)` (plain component-wise
offset). -/
theorem map_new_spec (sh : Shape) (ori : MapOrientation) (size origin : Point)
    (h1 : 0 ≤ size.hx) (h2 : 0 ≤ size.hy) :
    ((Map.new sh ori size origin).rows.length : Int) = size.hx ∧
    (∀ r ∈ (Map.new sh ori size origin).rows, ((r.row.length : Int) = size.hy)) ∧
    (∀ i j : Nat, (i : Int) < size.hx → (j : Int) < size.hy →
      ((((Map.new sh ori size origin).rows.getD i ⟨[]⟩).row.getD j
          (Hex.new ORIGIN)).location = origin + ⟨(i : Int), (j : Int)⟩)) := by
  refine ⟨?_, ?_, ?_⟩
  · unfold Map.new
    rw [List.length_map, length_rangeLt]
    omega
  · intro r hr
    unfold Map.new at hr
    rw [List.mem_map] at hr
    obtain ⟨x, _, rfl⟩ := hr
    simp only [Row.mk.injEq]
    rw [List.length_map, length_rangeLt]
    omega
  · intro i j hi hj
    unfold Map.new
    rw [getD_map_rangeLt _ _ _ _ _ (by omega)]
    rw [getD_map_rangeLt _ _ _ _ _ (by omega)]
    apply point_ext
    · simp only [Hex.new, add_hx]
      omega
    · simp only [Hex.new, add_hy]
      omega

/-- C9 (witness): the theorem applied to the spec's map scenario
`Map::new(Rectangle, Vertical, (5, 6), ORIGIN)`, checking the row
count and that cell `[2][3]` sits at `(2, 3)`. -/
theorem map_new_spec_witness :
    ((Map.new Shape.Rectangle MapOrientation.Vertical ⟨5, 6⟩ ORIGIN).rows.length : Int) =
      (Point.mk 5 6).hx ∧
    (((Map.new Shape.Rectangle MapOrientation.Vertical ⟨5, 6⟩ ORIGIN).rows.getD 2
        ⟨[]⟩).row.getD 3 (Hex.new ORIGIN)).location = ORIGIN + ⟨(2 : Nat), (3 : Nat)⟩ :=
  ⟨(map_new_spec Shape.Rectangle MapOrientation.Vertical ⟨5, 6⟩ ORIGIN
      (by decide) (by decide)).1,
   (map_new_spec Shape.Rectangle MapOrientation.Vertical ⟨5, 6⟩ ORIGIN
      (by decide) (by decide)).2.2 2 3 (by decide) (by decide)⟩

/-! ### Claim C6: negative radius -/

/-- C6 (code evaluated at the failing input): for a negative argument the
loop ranges of `region` and `ring` are empty, so both silently return the
empty sequence — no error is raised anywhere; the spec-modelled `spiral`
(a concatenation over an empty range of radii) is likewise empty. -/
theorem negative_radius_silent_empty :
    Point.region ORIGIN (-1) = [] ∧ Point.ring ORIGIN (-1) = [] ∧
    Point.spiral ORIGIN (-1) = [] := by decide

end HexGrid
